import Mathlib

/-!
Verification development for the factory generator of `gql-codegen-tools`
(`src/generateFactories.ts` and `src/utils/factory-helpers.ts`).

The TypeScript sources are shallowly embedded below.  External collaborators
are modelled at their boundaries:
* the GraphQL library (`parse`, `buildSchema`) is modelled by providing each
  source document both as raw text and as its parsed AST (`Document`);
* the file system (fragment files, generated factory files, the `ids.ts`
  store) lives in an explicit `World` record;
* `@faker-js/faker` is modelled as an indexed stream of draw bundles
  (`Nat → Faker`); each scalar mock consumes one bundle, which abstracts the
  library's global PRNG state;
* console output is collected as a log list returned alongside results
  (writer style), so that a run's diagnostics are observable.

The unbounded recursion of `generateFactory` is rendered with an explicit
fuel parameter; `RunResult.outOfFuel` marks a computation that consumed all
fuel, so "diverges for every fuel" witnesses nontermination of the original.
-/

namespace GqlGen

/-- GraphQL named-type kinds relevant to the generator.  Interfaces, unions
and input objects are not modelled; no schema in this development uses them. -/
inductive NamedKind
  | scalarType
  | enumType
  | objectType
deriving DecidableEq, Repr

/-- A GraphQL named type as it appears inside a field signature: the type
object carries its own name and kind, as in graphql-js. -/
structure GQLNamed where
  name : String
  kind : NamedKind
deriving DecidableEq, Repr

/-- A field type signature: a base named type under arbitrary list/non-null
wrappers. -/
inductive GQLType
  | base (t : GQLNamed)
  | list (t : GQLType)
  | nonNull (t : GQLType)
deriving DecidableEq, Repr

/-- `unwrapType` from factory-helpers.ts: repeatedly strip `GraphQLNonNull`
and `GraphQLList` wrappers. -/
def unwrapType : GQLType → GQLNamed
  | .base t => t
  | .list t => unwrapType t
  | .nonNull t => unwrapType t

/-- `isScalar` from factory-helpers.ts: an instance of `GraphQLScalarType`
or one of the built-in scalar names. -/
def isScalar (t : GQLNamed) : Bool :=
  t.kind == .scalarType ||
    ["String", "Int", "Float", "Boolean", "ID"].contains t.name

/-- `isEnum` from factory-helpers.ts. -/
def isEnum (t : GQLNamed) : Bool :=
  t.kind == .enumType

/-- `isListType` of graphql-js: is the outermost wrapper a list. -/
def isListType : GQLType → Bool
  | .list _ => true
  | _ => false

/-- `isListTypeDeep` from factory-helpers.ts: strip at most one outer
non-null wrapper, then test for a list wrapper. -/
def isListTypeDeep (t : GQLType) : Bool :=
  match t with
  | .nonNull u => isListType u
  | _ => isListType t

/-- A named type declared by the schema: kind plus field list (ordered).
`getFields` is lookup in `fields`. -/
structure TypeDef where
  kind : NamedKind
  fields : List (String × GQLType)
deriving DecidableEq, Repr

/-- The loaded schema: user-declared named types, looked up by name. -/
structure Schema where
  types : List (String × TypeDef)
deriving DecidableEq, Repr

/-- Association-list lookup by string key (first match), mirroring JS object
property access. -/
def lookupStr {α : Type} (k : String) : List (String × α) → Option α
  | [] => none
  | (k2, v) :: rest => if k == k2 then some v else lookupStr k rest

/-- `schema.getType(name)` of graphql-js restricted to user-declared types. -/
def Schema.getType (s : Schema) (n : String) : Option TypeDef :=
  lookupStr n s.types

/-- A selection inside a fragment body: a field (with its sub-selections,
which the generator itself never traverses) or a fragment spread. -/
inductive Selection
  | field (name : String) (subsel : List Selection)
  | spread (name : String)

/-- A parsed `FragmentDefinition` node: name, type condition, selections. -/
structure FragmentDef where
  name : String
  typeCondition : String
  selections : List Selection

/-- A top-level definition of a parsed document. -/
inductive Definition
  | fragmentDef (f : FragmentDef)
  | otherDef

/-- A parsed GraphQL document (`parse(content)`). -/
structure Document where
  definitions : List Definition

/-- `fragmentAst.definitions.find(d => d.kind === "FragmentDefinition")`. -/
def findFragment (d : Document) : Option FragmentDef :=
  d.definitions.findSome? fun
    | .fragmentDef f => some f
    | .otherDef => none

/-- `getTopLevelFragmentSpreads` from factory-helpers.ts: for every fragment
definition of the document, the names of its top-level fragment spreads. -/
def getTopLevelFragmentSpreads (d : Document) : List String :=
  d.definitions.flatMap fun
    | .fragmentDef f =>
        f.selections.filterMap fun
          | .spread n => some n
          | .field _ _ => none
    | .otherDef => []

/-- JS `\w` character class (ASCII word character). -/
def isWordChar (c : Char) : Bool :=
  c.isAlphanum || c == '_'

/-- JS `\s` character class (common whitespace). -/
def isSpaceChar (c : Char) : Bool :=
  c == ' ' || c == '\t' || c == '\n' || c == '\r' || c == '\x0b' || c == '\x0c'

/-- Maximal run of word characters at the head (greedy `\w*`). -/
def takeWord : List Char → List Char × List Char
  | [] => ([], [])
  | c :: cs =>
    if isWordChar c then
      match takeWord cs with
      | (w, r) => (c :: w, r)
    else ([], c :: cs)

/-- Maximal run of whitespace at the head (greedy `\s*`). -/
def takeSpaces : List Char → List Char × List Char
  | [] => ([], [])
  | c :: cs =>
    if isSpaceChar c then
      match takeSpaces cs with
      | (w, r) => (c :: w, r)
    else ([], c :: cs)

/-- Try to match the regex `(\w+)\s*\{\s*\.\.\.(\w+)` at the head of the
input; on success return both captures and the remaining input.  Greedy
`\w+`/`\s*` need no backtracking here because the follower characters are
disjoint from the repeated classes. -/
def matchFieldSpreadAt (l : List Char) : Option (List Char × List Char × List Char) :=
  match takeWord l with
  | ([], _) => none
  | (w, r1) =>
    match takeSpaces r1 with
    | (_, '\x7b' :: r2) =>
      match takeSpaces r2 with
      | (_, '.' :: '.' :: '.' :: r3) =>
        match takeWord r3 with
        | ([], _) => none
        | (g, r4) => some (w, g, r4)
      | _ => none
    | _ => none

/-- `matchAll` scan: try the pattern at every position, left to right,
resuming after each match.  The fuel bounds the number of scan steps; each
step consumes at least one character, so `fuel = l.length` is always enough. -/
def scanPairs : Nat → List Char → List (String × String)
  | 0, _ => []
  | _, [] => []
  | fuel + 1, c :: cs =>
    match matchFieldSpreadAt (c :: cs) with
    | some (w, g, rest) => (String.mk w, String.mk g) :: scanPairs fuel rest
    | none => scanPairs fuel cs

/-- `Object.fromEntries` keeps the last pair for a duplicated key, so map
access reads the last recorded pair. -/
def lookupLast (ps : List (String × String)) (k : String) : Option String :=
  ((ps.filter fun p => p.1 == k).map fun p => p.2).getLast?

/-- `getFieldFragmentMap` from factory-helpers.ts: all matches of
`(\w+)\s*\{\s*\.\.\.(\w+)` over the raw document text, as an entry list. -/
def getFieldFragmentMap (content : String) : List (String × String) :=
  scanPairs content.length content.data

/-- Try to match `fragment (\w+) on` at the head of the input. -/
def matchFragmentNameAt (l : List Char) : Option String :=
  match l with
  | 'f' :: 'r' :: 'a' :: 'g' :: 'm' :: 'e' :: 'n' :: 't' :: ' ' :: r1 =>
    match takeWord r1 with
    | ([], _) => none
    | (w, ' ' :: 'o' :: 'n' :: _) => some (String.mk w)
    | _ => none
  | _ => none

/-- Scan for the first match of `fragment (\w+) on` (leftmost position). -/
def scanFragmentName : Nat → List Char → Option String
  | 0, _ => none
  | _, [] => none
  | fuel + 1, c :: cs =>
    match matchFragmentNameAt (c :: cs) with
    | some w => some w
    | none => scanFragmentName fuel cs

/-- `extractFragmentName` from factory-helpers.ts: first match of
`fragment (\w+) on` in the file contents; the source throws when absent,
rendered here as `none`. -/
def extractFragmentName (content : String) : Option String :=
  scanFragmentName content.length content.data

/-- One step of `replace(/([a-z])([A-Z])/g, "$1-$2")`: insert a dash between
a lowercase letter and the uppercase letter following it. -/
def kebabInsert : List Char → List Char
  | [] => []
  | [c] => [c]
  | a :: b :: rest =>
    if a.isLower && b.isUpper then a :: '-' :: kebabInsert (b :: rest)
    else a :: kebabInsert (b :: rest)

/-- ASCII lowercasing of a string (JS `toLowerCase` on identifiers). -/
def toLowerStr (s : String) : String :=
  String.mk (s.data.map Char.toLower)

/-- `toKebabCase` from factory-helpers.ts. -/
def toKebabCase (s : String) : String :=
  toLowerStr (String.mk (kebabInsert s.data))

/-- Replacement pass of `replace(/(^\w|-\w)/g, m => m.replace("-", "").toUpperCase())`
for positions after the first character: a dash followed by a word character
becomes that character uppercased. -/
def pascalGo : List Char → List Char
  | [] => []
  | '-' :: c :: rest =>
    if isWordChar c then c.toUpper :: pascalGo rest
    else '-' :: pascalGo (c :: rest)
  | c :: rest => c :: pascalGo rest

/-- `toPascalCase` from factory-helpers.ts. -/
def toPascalCase (s : String) : String :=
  match s.data with
  | [] => ""
  | c :: rest =>
    if isWordChar c then String.mk (c.toUpper :: pascalGo rest)
    else String.mk (pascalGo (c :: rest))

/-- `toCamelCase` from factory-helpers.ts: lowercase the first character. -/
def toCamelCase (s : String) : String :=
  match s.data with
  | [] => ""
  | c :: rest => String.mk (c.toLower :: rest)

/-- Split a character list on a separator (for `/`-separated paths). -/
def splitChar (sep : Char) : List Char → List (List Char)
  | [] => [[]]
  | c :: rest =>
    if c == sep then [] :: splitChar sep rest
    else
      match splitChar sep rest with
      | [] => [[c]]
      | g :: gs => (c :: g) :: gs

/-- Path segments of a `/`-separated path. -/
def pathSegments (p : String) : List String :=
  (splitChar '/' p.data).map String.mk

/-- Join path segments with `/`. -/
def joinSegments : List String → String
  | [] => ""
  | [s] => s
  | s :: rest => s ++ "/" ++ joinSegments rest

/-- `path.dirname` for the relative `/`-separated paths used here. -/
def dirname (p : String) : String :=
  let segs := pathSegments p
  if segs.length ≤ 1 then "." else joinSegments segs.dropLast

/-- Drop the shared leading segments of two paths. -/
def dropShared : List String → List String → List String × List String
  | x :: xs, y :: ys =>
    if x == y then dropShared xs ys else (x :: xs, y :: ys)
  | xs, ys => (xs, ys)

/-- `path.relative` for the normalized relative paths used here: after the
shared prefix, one `..` per remaining source segment, then the remaining
target segments. -/
def pathRelative (src dst : String) : String :=
  match dropShared (pathSegments src) (pathSegments dst) with
  | (ups, downs) => joinSegments (List.replicate ups.length ".." ++ downs)

/-- Remove a trailing `.ts` (the `replace(/\.ts$/, "")` step). -/
def stripTsSuffix (s : String) : String :=
  match s.data.reverse with
  | 's' :: 't' :: '.' :: rest => String.mk rest.reverse
  | _ => s

/-- `toRelativeImport` from factory-helpers.ts. -/
def toRelativeImport (src dst : String) : String :=
  let rel := stripTsSuffix (pathRelative src dst)
  match rel.data with
  | '.' :: _ => rel
  | _ => "./" ++ rel

/-- A sequence of sample identifiers stored in the `ids` object: string
literals or numeric literals. -/
inductive IdSeq
  | strs (l : List String)
  | nums (l : List Nat)
deriving DecidableEq, Repr

/-- `handleIdField` from factory-helpers.ts.  The `ids` object literal is an
ordered entry list; `addPropertyAssignment` appends at the end.  Returns the
updated object, the pushed field line, and the pushed import line. -/
def handleIdField (typeName : String) (idsObject : List (String × IdSeq))
    (baseTypeName : String) (idsImportPath : String) :
    List (String × IdSeq) × String × String :=
  let idsKey := toCamelCase typeName
  let isStringId := baseTypeName == "String" || baseTypeName == "ID"
  let idsObject2 :=
    if (lookupStr idsKey idsObject).isSome then idsObject
    else idsObject ++
      [(idsKey, if isStringId then IdSeq.strs ["1", "2", "3"] else IdSeq.nums [1, 2, 3])]
  (idsObject2,
   "  id: ids." ++ idsKey ++ "[0],",
   "import \x7b ids \x7d from \"" ++ idsImportPath ++ "\";")

/-- One draw bundle of the external value-synthesis library: the values the
faker generators would return at one point of the PRNG stream. -/
structure Faker where
  email : String
  fullName : String
  firstName : String
  lastName : String
  username : String
  url : String
  phone : String
  city : String
  country : String
  address : String
  word : String
  intVal : Nat
  floatVal : String
  boolVal : Bool
  dateISO : String

/-- `JSON.stringify` on the short literal strings produced here: quote and
escape quotes, backslashes and common control characters. -/
def jsonEscapeChar (c : Char) : List Char :=
  if c == '"' then ['\\', '"']
  else if c == '\\' then ['\\', '\\']
  else if c == '\n' then ['\\', 'n']
  else if c == '\t' then ['\\', 't']
  else if c == '\r' then ['\\', 'r']
  else [c]

/-- `JSON.stringify` for strings. -/
def jsonStringify (s : String) : String :=
  "\"" ++ String.mk (s.data.flatMap jsonEscapeChar) ++ "\""

/-- Substring test (JS `String.prototype.includes`). -/
def containsSub (s pat : String) : Bool :=
  decide (pat.data <:+: s.data)

/-- `getFakerMockForScalar` from factory-helpers.ts, with the faker draw
bundle made explicit. -/
def getFakerMockForScalar (fk : Faker) (scalar fieldName : String) : String :=
  let name := toLowerStr fieldName
  if scalar == "String" then
    if containsSub name "email" then jsonStringify fk.email
    else if containsSub name "fullname" then jsonStringify fk.fullName
    else if containsSub name "first" then jsonStringify fk.firstName
    else if containsSub name "last" then jsonStringify fk.lastName
    else if containsSub name "username" then jsonStringify fk.username
    else if containsSub name "url" || containsSub name "uri" then jsonStringify fk.url
    else if containsSub name "phone" then jsonStringify fk.phone
    else if containsSub name "city" then jsonStringify fk.city
    else if containsSub name "country" then jsonStringify fk.country
    else if containsSub name "address" then jsonStringify fk.address
    else jsonStringify fk.word
  else if scalar == "Int" then toString fk.intVal
  else if scalar == "Float" then fk.floatVal
  else if scalar == "Boolean" then (if fk.boolVal then "true" else "false")
  else if scalar == "Date" || scalar == "DateTime" then jsonStringify fk.dateISO
  else jsonStringify ("mock-" ++ name)

/-- A single-quote character, kept out of string literals. -/
def sq : String :=
  String.mk [Char.ofNat 39]

/-- Join character lines with a separator character. -/
def joinChar (sep : Char) : List (List Char) → List Char
  | [] => []
  | [g] => g
  | g :: gs => g ++ sep :: joinChar sep gs

/-- Match `enum` `\s+` name `\b` at the head of the input (the test regex of
`resolveEnumAccess`). -/
def matchEnumHeadAt (name : List Char) (l : List Char) : Bool :=
  match l with
  | 'e' :: 'n' :: 'u' :: 'm' :: r1 =>
    match takeSpaces r1 with
    | ([], _) => false
    | (_, r2) =>
      name.isPrefixOf r2 &&
        (match r2.drop name.length with
         | [] => true
         | c :: _ => !isWordChar c)
  | _ => false

/-- `new RegExp("enum\\s+" + enumName + "\\b").test(content)`. -/
def testEnumDecl (content : String) (name : String) : Bool :=
  content.data.tails.any (matchEnumHeadAt name.data)

/-- Match `enum` `\s+` name `\s*` `{` at the head; on success return the rest
after the opening brace. -/
def matchEnumBodyAt (name : List Char) (l : List Char) : Option (List Char) :=
  match l with
  | 'e' :: 'n' :: 'u' :: 'm' :: r1 =>
    match takeSpaces r1 with
    | ([], _) => none
    | (_, r2) =>
      if name.isPrefixOf r2 then
        match takeSpaces (r2.drop name.length) with
        | (_, '\x7b' :: r3) => some r3
        | _ => none
      else none
  | _ => none

/-- Characters up to (excluding) the first closing brace, the lazy
`([\s\S]*?)}` capture; `none` when no closing brace exists. -/
def takeUntilCloseBrace : List Char → Option (List Char)
  | [] => none
  | '\x7d' :: _ => some []
  | c :: rest => (takeUntilCloseBrace rest).map (c :: ·)

/-- Leftmost match of `enum\s+Name\s*{([\s\S]*?)}`: scan every position. -/
def scanEnumBody (name : List Char) : Nat → List Char → Option (List Char)
  | 0, _ => none
  | _, [] => none
  | fuel + 1, c :: cs =>
    match matchEnumBodyAt name (c :: cs) with
    | some rest => takeUntilCloseBrace rest
    | none => scanEnumBody name fuel cs

/-- Skip to just after the first `*/` reachable without crossing a newline
(JS `.` does not match `\n`). -/
def findBlockClose : List Char → Option (List Char)
  | '*' :: '/' :: rest => some rest
  | '\n' :: _ => none
  | [] => none
  | _ :: rest => findBlockClose rest

/-- `replace(/\/\*.*?\*\//g, "")`: remove single-line block comments. -/
def stripBlockComments : Nat → List Char → List Char
  | 0, l => l
  | _, [] => []
  | fuel + 1, '/' :: '*' :: rest =>
    (match findBlockClose rest with
     | some rest2 => stripBlockComments fuel rest2
     | none => '/' :: stripBlockComments fuel ('*' :: rest))
  | fuel + 1, c :: rest => c :: stripBlockComments fuel rest

/-- Truncate at the first `//`. -/
def truncAtSlashes : List Char → List Char
  | '/' :: '/' :: _ => []
  | [] => []
  | c :: rest => c :: truncAtSlashes rest

/-- `replace(/\/\/.*$/, "")` without the `m` flag: `$` is end of input and
`.` cannot cross `\n`, so only a `//` comment on the last line is removed. -/
def stripLineComment (l : List Char) : List Char :=
  let ls := splitChar '\n' l
  joinChar '\n' (ls.dropLast ++ [truncAtSlashes (ls.getLastD [])])

/-- JS `String.prototype.trim`. -/
def trimChars (l : List Char) : List Char :=
  ((l.dropWhile isSpaceChar).reverse.dropWhile isSpaceChar).reverse

/-- Result of `resolveEnumAccess`: emitted member access and optional import. -/
structure EnumAccess where
  value : String
  importLine : Option String
deriving DecidableEq, Repr

/-- `resolveEnumAccess` from factory-helpers.ts.  `tsFiles` stands for the
`glob.sync("src/**/*.ts")` result (path, contents) in glob order. -/
def resolveEnumAccess (tsFiles : List (String × String)) (enumName dir : String) :
    EnumAccess :=
  match tsFiles.filter (fun f => testEnumDecl f.2 enumName) with
  | [] => { value := sq ++ "UNKNOWN" ++ sq, importLine := none }
  | enumFile :: _ =>
    match scanEnumBody enumName.data enumFile.2.length enumFile.2.data with
    | none => { value := sq ++ "UNKNOWN" ++ sq, importLine := none }
    | some body =>
      let items := (splitChar ',' body).map fun item =>
        trimChars (stripLineComment (stripBlockComments item.length item))
      let key : Option String :=
        match items.filter (fun i => !i.isEmpty) with
        | [] => none
        | first :: _ =>
          some (String.mk (trimChars ((splitChar '='
            ((splitChar ':' first).headD [])).headD [])))
      { value := enumName ++ "." ++ (match key with | some k => k | none => "undefined"),
        importLine := some ("import \x7b " ++ enumName ++ " \x7d from \"" ++
          toRelativeImport dir enumFile.1 ++ "\";") }

/-- A `.fragment.gql` source file: path, raw text, and its parse result. -/
structure FragmentFile where
  path : String
  text : String
  doc : Document

/-- The ambient state of a run: schema, file system, `ids.ts` store and the
external RNG stream.  Console output is not state; it is returned by the
pipeline functions. -/
structure World where
  schema : Schema
  fragmentFiles : List FragmentFile
  factoryFiles : List (String × String)
  tsFiles : List (String × String)
  idsDisk : List (String × IdSeq)
  rngFaker : Nat → Faker
  rngIx : Nat
  savedCount : Nat

/-- Result of a run stage: success or an uncaught exception, each with the
console lines produced, or fuel exhaustion (modelling nontermination). -/
inductive RunResult (α : Type)
  | ok (a : α) (log : List String)
  | crash (msg : String) (w : World) (log : List String)
  | outOfFuel

/-- Prefix earlier console lines onto a stage result. -/
def RunResult.withLog {α : Type} (pre : List String) : RunResult α → RunResult α
  | .ok a lg => .ok a (pre ++ lg)
  | .crash m w lg => .crash m w (pre ++ lg)
  | .outOfFuel => .outOfFuel

/-- `glob.sync("src/**/*/" + name)`: first fragment file under `src/` with at
least one intermediate directory and the given file name. -/
def globFragment (w : World) (fileName : String) : Option FragmentFile :=
  w.fragmentFiles.find? fun f =>
    let segs := pathSegments f.path
    decide (3 ≤ segs.length) && segs.headD "" == "src" && segs.getLastD "" == fileName

/-- `glob.sync("src/gql/**/" + name)`: first factory file under `src/gql/`
with the given file name. -/
def globFactoryFile (w : World) (fileName : String) : Option String :=
  (w.factoryFiles.find? fun f =>
    let segs := pathSegments f.1
    decide (3 ≤ segs.length) && segs.headD "" == "src" &&
      ((segs.get? 1).getD "") == "gql" && segs.getLastD "" == fileName).map (fun f => f.1)

/-- `fs.readFileSync` of a fragment file. -/
def findFile (w : World) (p : String) : Option FragmentFile :=
  w.fragmentFiles.find? fun f => f.path == p

/-- `fs.writeFileSync`: overwrite in place or append a new file. -/
def writeFactoryFile (w : World) (p c : String) : World :=
  { w with factoryFiles :=
      if (lookupStr p w.factoryFiles).isSome then
        w.factoryFiles.map (fun e => if e.1 == p then (p, c) else e)
      else w.factoryFiles ++ [(p, c)] }

/-- Replace the first occurrence of `pat` in a string (JS `String.replace`
with a string pattern). -/
def replaceFirstAux : Nat → List Char → List Char → List Char → List Char
  | 0, l, _, _ => l
  | _, [], _, _ => []
  | fuel + 1, c :: rest, pat, repl =>
    if pat.isPrefixOf (c :: rest) then repl ++ (c :: rest).drop pat.length
    else c :: replaceFirstAux fuel rest pat repl

/-- JS `s.replace(pat, repl)` for plain string patterns. -/
def replaceFirst (s pat repl : String) : String :=
  String.mk (replaceFirstAux s.data.length s.data pat.data repl.data)

/-- The generation strategy chosen for a selected field. -/
inductive FieldClass
  | idField
  | scalarField
  | enumField
  | objectField
deriving DecidableEq, Repr

/-- The classification chain of the selection loop in generateFactories.ts
(lines 84-114): the `id` name test, then `isScalar`, then `isEnum`, else the
nested-fragment branch. -/
def classify (fieldName : String) (base : GQLNamed) : FieldClass :=
  if fieldName == "id" then .idField
  else if isScalar base then .scalarField
  else if isEnum base then .enumField
  else .objectField

/-- Per-fragment constants threaded through the selection loop. -/
structure SelCtx where
  typeName : String
  typeFields : List (String × GQLType)
  fieldMap : List (String × String)
  fragmentDir : String
  idsRelativePath : String

/-- Mutable accumulators of the selection loop. -/
structure SelState where
  w : World
  idsMem : List (String × IdSeq)
  imports : List String
  nestedImports : List String
  fields : List String

/-- The selection loop of `generateFactory` (lines 77-140).  `rec` is the
recursive `generateFactory` call used for missing nested factories.  A field
absent from the schema type makes `gqlField.type` a read on `undefined`: an
uncaught TypeError. -/
def processSelections (rec : World → String → RunResult World) (ctx : SelCtx) :
    SelState → List Selection → RunResult SelState
  | st, [] => .ok st []
  | st, .spread _ :: rest => processSelections rec ctx st rest
  | st, .field fieldName _ :: rest =>
    match lookupStr fieldName ctx.typeFields with
    | none =>
      .crash ("TypeError: Cannot read properties of undefined (reading type) for field "
        ++ fieldName) st.w []
    | some fieldType =>
      let base := unwrapType fieldType
      match classify fieldName base with
      | .idField =>
        match handleIdField ctx.typeName st.idsMem base.name ctx.idsRelativePath with
        | (ids2, fieldLine, importLine) =>
          processSelections rec ctx
            { st with
                idsMem := ids2
                imports := st.imports ++ [importLine]
                fields := st.fields ++ [fieldLine] } rest
      | .scalarField =>
        let fk := st.w.rngFaker st.w.rngIx
        let mockValue := getFakerMockForScalar fk base.name fieldName
        let line :=
          if isListTypeDeep fieldType then "  " ++ fieldName ++ ": [" ++ mockValue ++ "],"
          else "  " ++ fieldName ++ ": " ++ mockValue ++ ","
        processSelections rec ctx
          { st with
              w := { st.w with rngIx := st.w.rngIx + 1 }
              fields := st.fields ++ [line] } rest
      | .enumField =>
        let ea := resolveEnumAccess (st.w.tsFiles ++ st.w.factoryFiles) base.name ctx.fragmentDir
        let nested2 :=
          match ea.importLine with
          | some imp => st.nestedImports ++ [imp]
          | none => st.nestedImports
        processSelections rec ctx
          { st with
              nestedImports := nested2
              fields := st.fields ++ ["  " ++ fieldName ++ ": " ++ ea.value ++ ","] } rest
      | .objectField =>
        let fragmentToSearch := toPascalCase ((lookupLast ctx.fieldMap fieldName).getD base.name)
        match globFragment st.w (toKebabCase fragmentToSearch ++ ".fragment.gql") with
        | none => processSelections rec ctx st rest
        | some nf =>
          match extractFragmentName nf.text with
          | none => .crash ("Fragment name not found in " ++ nf.path) st.w []
          | some nestedFragmentName =>
            let nestedFactoryName := "createMock" ++ toPascalCase nestedFragmentName
            let nestedFactoryPath := replaceFirst nf.path ".fragment.gql" ".factory.ts"
            let genRes :=
              if (lookupStr nestedFactoryPath st.w.factoryFiles).isSome then
                RunResult.ok st.w []
              else
                (rec st.w nf.path).withLog
                  ["🔁 Generating nested factory for " ++ fragmentToSearch]
            match genRes with
            | .crash m wc lg => .crash m wc lg
            | .outOfFuel => .outOfFuel
            | .ok w2 lg =>
              let relPath := toRelativeImport ctx.fragmentDir nestedFactoryPath
              let line :=
                if isListTypeDeep fieldType then
                  "  " ++ fieldName ++ ": [" ++ nestedFactoryName ++ "()],"
                else "  " ++ fieldName ++ ": " ++ nestedFactoryName ++ "(),"
              (processSelections rec ctx
                { st with
                    w := w2
                    nestedImports := st.nestedImports ++
                      ["import \x7b " ++ nestedFactoryName ++ " \x7d from \"" ++ relPath ++ "\";"]
                    fields := st.fields ++ [line] } rest).withLog lg

/-- The top-level-spreads loop (lines 142-151): push an import, `unshift` the
spread line; a spread whose factory file is not found is skipped. -/
def spreadsFold (w : World) (fragmentDir : String) :
    List String → List String → List String → List String × List String
  | [], nestedImports, fields => (nestedImports, fields)
  | s :: rest, nestedImports, fields =>
    match globFactoryFile w (toKebabCase s ++ ".factory.ts") with
    | none => spreadsFold w fragmentDir rest nestedImports fields
    | some mp =>
      spreadsFold w fragmentDir rest
        (nestedImports ++ ["import \x7b createMock" ++ s ++ " \x7d from \"" ++
          toRelativeImport fragmentDir mp ++ "\";"])
        (("  ...createMock" ++ s ++ "(),") :: fields)

/-- Join emitted lines with newlines (`join("\n")`). -/
def joinLines : List String → String
  | [] => ""
  | [s] => s
  | s :: rest => s ++ "\n" ++ joinLines rest

/-- The artifact layout of lines 155-167. -/
def mkFileContent (imports nestedImports : List String)
    (defaultObjectName typeName factoryName : String) (fields : List String) : String :=
  joinLines (imports ++ nestedImports ++ [""] ++
    ["const " ++ defaultObjectName ++ ": " ++ typeName ++ " = \x7b"] ++ fields ++
    ["\x7d;"] ++ [""] ++
    ["export const " ++ factoryName ++ " = (overwrites: Partial<" ++ typeName ++
       "> = \x7b\x7d): " ++ typeName ++ " => (\x7b",
     "  ..." ++ defaultObjectName ++ ",",
     "  ...overwrites,",
     "\x7d);"])

/-- Path of the persisted ids store (`path.resolve("src/gql/ids.ts")` with
the project root as working directory). -/
def idsPath : String := "src/gql/ids.ts"

/-- The body of the per-file loop of `generateFactory` (lines 43-171).  A
document with no fragment definition, or a type condition absent from the
schema, is skipped via `continue`.  Type conditions naming enum or scalar
types are not modelled (no world here uses them). -/
def processOneFile (rec : World → String → RunResult World) (w : World)
    (idsMem : List (String × IdSeq)) (filePath : String) :
    RunResult (World × List (String × IdSeq)) :=
  match findFile w filePath with
  | none => .crash ("ENOENT: no such file or directory, open " ++ filePath) w []
  | some file =>
    match findFragment file.doc with
    | none => .ok (w, idsMem) []
    | some fragment =>
      match w.schema.getType fragment.typeCondition with
      | none => .ok (w, idsMem) []
      | some type =>
        let fragmentName := fragment.name
        let typeName := fragmentName ++ "Fragment"
        let factoryName := "createMock" ++ fragmentName
        let defaultObjectName := "default" ++ fragmentName
        let fragmentDir := dirname filePath
        let fragmentBase := toKebabCase fragmentName
        let factoryFilePath := fragmentDir ++ "/" ++ fragmentBase ++ ".factory.ts"
        let idsRelativePath := toRelativeImport fragmentDir idsPath
        let imports :=
          ["import \x7b " ++ typeName ++ " \x7d from \"./" ++ fragmentBase ++
            ".fragment.generated\";"]
        let ctx : SelCtx :=
          { typeName := fragment.typeCondition, typeFields := type.fields,
            fieldMap := getFieldFragmentMap file.text, fragmentDir := fragmentDir,
            idsRelativePath := idsRelativePath }
        match processSelections rec ctx
            { w := w, idsMem := idsMem, imports := imports,
              nestedImports := [], fields := [] } fragment.selections with
        | .crash m wc lg => .crash m wc lg
        | .outOfFuel => .outOfFuel
        | .ok st lg =>
          match spreadsFold st.w fragmentDir (getTopLevelFragmentSpreads file.doc)
              st.nestedImports st.fields with
          | (nested2, fields2) =>
            let fields3 := fields2 ++ ["  __typename: \"" ++ fragment.typeCondition ++ "\","]
            let fileContent :=
              mkFileContent st.imports nested2 defaultObjectName typeName factoryName fields3
            .ok (writeFactoryFile st.w factoryFilePath fileContent, st.idsMem)
              (lg ++ ["✅ Generated " ++ factoryName ++ " at " ++ factoryFilePath])

/-- The `for (const filePath of fragmentFiles)` loop: thread world and the
in-memory ids object; an uncaught exception aborts the remaining files. -/
def processFiles (rec : World → String → RunResult World) :
    World → List (String × IdSeq) → List String →
    RunResult (World × List (String × IdSeq))
  | w, ids, [] => .ok (w, ids) []
  | w, ids, p :: rest =>
    match processOneFile rec w ids p with
    | .ok (w2, ids2) lg => (processFiles rec w2 ids2 rest).withLog lg
    | .crash m wc lg => .crash m wc lg
    | .outOfFuel => .outOfFuel

/-- The file list of one `generateFactory` invocation: the supplied path or
the full fragment glob. -/
def targetFiles (w : World) (target : Option String) : List String :=
  match target with
  | some p => [p]
  | none => w.fragmentFiles.map fun f => f.path

/-- `generateFactory` from generateFactories.ts.  Each invocation loads
`ids.ts` from disk into memory, processes its file list, then `saveSync`s the
in-memory object back to disk (overwriting it) exactly once at the end —
including recursive invocations made for missing nested factories.  The fuel
argument bounds the recursion depth; `outOfFuel` models nontermination. -/
def generateFactory : Nat → World → Option String → RunResult World
  | 0, _, _ => .outOfFuel
  | fuel + 1, w, target =>
    match processFiles (fun w2 p => generateFactory fuel w2 (some p)) w w.idsDisk
        (targetFiles w target) with
    | .ok (w2, idsMem) lg =>
      .ok { w2 with idsDisk := idsMem, savedCount := w2.savedCount + 1 }
        (lg ++ ["💾 ids.ts updated"])
    | .crash m wc lg => .crash m wc lg
    | .outOfFuel => .outOfFuel

/-- The loop of `main`: one `generateFactory` invocation per discovered
fragment; an escaped exception is caught by `main().catch`, logged, and ends
the run (remaining fragments are not processed). -/
def mainLoop (fuel : Nat) : World → List String → RunResult World
  | w, [] => .ok w []
  | w, p :: rest =>
    match generateFactory fuel w (some p) with
    | .ok w2 lg =>
      (mainLoop fuel w2 rest).withLog (("🔧 Generating factory for " ++ p) :: lg)
    | .crash m wc lg =>
      .ok wc (("🔧 Generating factory for " ++ p) :: lg ++
        ["💥 Error running factory generator: " ++ m])
    | .outOfFuel => .outOfFuel

/-- `main` from generateFactories.ts. -/
def mainRun (fuel : Nat) (w : World) : RunResult World :=
  match w.fragmentFiles.map (fun f => f.path) with
  | [] => .ok w ["⚠️  No .fragment.gql files found. Nothing to generate."]
  | p :: rest => mainLoop fuel w (p :: rest)

/-- The final world of a finished run (successful or crashed). -/
def finalWorld : RunResult World → Option World
  | .ok w _ => some w
  | .crash _ w _ => some w
  | .outOfFuel => none

/-- The console lines of a finished run. -/
def finalLog : RunResult World → Option (List String)
  | .ok _ lg => some lg
  | .crash _ _ lg => some lg
  | .outOfFuel => none

/-- The generated artifact at a path after a finished run. -/
def artifactAt (r : RunResult World) (p : String) : Option String :=
  (finalWorld r).bind fun w => lookupStr p w.factoryFiles

/-- The registry save count after a finished run. -/
def saveCountAfter (r : RunResult World) : Option Nat :=
  (finalWorld r).map fun w => w.savedCount

/-- A fixed faker draw bundle. -/
def fkA : Faker where
  email := "a@example.com"
  fullName := "Ada Lovelace"
  firstName := "Ada"
  lastName := "Lovelace"
  username := "ada"
  url := "https://a.example"
  phone := "555-0100"
  city := "Acity"
  country := "Aland"
  address := "1 A St"
  word := "alpha"
  intVal := 7
  floatVal := "7.5"
  boolVal := true
  dateISO := "2024-01-01T00:00:00.000Z"

/-- A second faker draw bundle, differing in the email draw. -/
def fkB : Faker :=
  { fkA with email := "b@example.com" }

/-- A world with the given schema, fragment files and pre-existing factory
files, empty ids store, and the `fkA` RNG stream. -/
def baseWorld (s : Schema) (frags : List FragmentFile)
    (facts : List (String × String)) : World where
  schema := s
  fragmentFiles := frags
  factoryFiles := facts
  tsFiles := []
  idsDisk := []
  rngFaker := fun _ => fkA
  rngIx := 0
  savedCount := 0

/-- Schema with the self-referential type `A { friend: A }`. -/
def cycSchema : Schema :=
  ⟨[("A", ⟨.objectType, [("friend", .base ⟨"A", .objectType⟩)]⟩)]⟩

/-- `fragment A on A { friend { ...A } }` as raw text. -/
def cycText : String :=
  "fragment A on A\x7bfriend\x7b...A\x7d\x7d"

/-- Its parse result. -/
def cycDoc : Document :=
  ⟨[.fragmentDef ⟨"A", "A", [.field "friend" [.spread "A"]]⟩]⟩

/-- Path of the self-referential fragment file. -/
def cycPath : String := "src/gql/a/a.fragment.gql"

/-- World for the cycle scenario: the factory for `A` does not exist yet. -/
def wCyc : World :=
  baseWorld cycSchema [⟨cycPath, cycText, cycDoc⟩] []

/-- Schema with `User { email: String }`. -/
def detSchema : Schema :=
  ⟨[("User", ⟨.objectType, [("email", .base ⟨"String", .scalarType⟩)]⟩)]⟩

/-- The `fragment U on User { email }` file. -/
def detFile : FragmentFile :=
  ⟨"src/gql/u/u.fragment.gql", "fragment U on User\x7bemail\x7d",
   ⟨[.fragmentDef ⟨"U", "User", [.field "email" []]⟩]⟩⟩

/-- Determinism scenario, first PRNG state. -/
def wDetA : World :=
  baseWorld detSchema [detFile] []

/-- Determinism scenario, second PRNG state: identical declared inputs
(schema, fragments, factories, ids store), different RNG stream. -/
def wDetB : World :=
  { wDetA with rngFaker := fun _ => fkB }

/-- Schema with `Org { name: String }`. -/
def orgSchema : Schema :=
  ⟨[("Org", ⟨.objectType, [("name", .base ⟨"String", .scalarType⟩)]⟩)]⟩

/-- `fragment C on Org { ...G1 ...G2 name }`: two top-level spreads declared
in the order G1, G2, then one field. -/
def spreadFile : FragmentFile :=
  ⟨"src/gql/c/c.fragment.gql", "fragment C on Org\x7b...G1 ...G2 name\x7d",
   ⟨[.fragmentDef ⟨"C", "Org", [.spread "G1", .spread "G2", .field "name" []]⟩]⟩⟩

/-- Spread-ordering scenario: both spread factories already exist. -/
def wSpread : World :=
  baseWorld orgSchema [spreadFile]
    [("src/gql/g1/g1.factory.ts", ""), ("src/gql/g2/g2.factory.ts", "")]

/-- Schema with `T { name: String }`. -/
def tSchema : Schema :=
  ⟨[("T", ⟨.objectType, [("name", .base ⟨"String", .scalarType⟩)]⟩)]⟩

/-- `fragment X on T { name }`. -/
def xFile : FragmentFile :=
  ⟨"src/gql/x/x.fragment.gql", "fragment X on T\x7bname\x7d",
   ⟨[.fragmentDef ⟨"X", "T", [.field "name" []]⟩]⟩⟩

/-- `fragment Y on T { name }`. -/
def yFile : FragmentFile :=
  ⟨"src/gql/y/y.fragment.gql", "fragment Y on T\x7bname\x7d",
   ⟨[.fragmentDef ⟨"Y", "T", [.field "name" []]⟩]⟩⟩

/-- Two independent fragment documents. -/
def wTwo : World :=
  baseWorld tSchema [xFile, yFile] []

/-- `fragment G on Ghost { id }` where `Ghost` is absent from the schema. -/
def ghostFile : FragmentFile :=
  ⟨"src/gql/g/g.fragment.gql", "fragment G on Ghost\x7bid\x7d",
   ⟨[.fragmentDef ⟨"G", "Ghost", [.field "id" []]⟩]⟩⟩

/-- Missing-type scenario. -/
def wGhost : World :=
  baseWorld tSchema [ghostFile] []

/-- `fragment B on T { nope }` where `T` has no field `nope`. -/
def badFieldFile : FragmentFile :=
  ⟨"src/gql/b/b.fragment.gql", "fragment B on T\x7bnope\x7d",
   ⟨[.fragmentDef ⟨"B", "T", [.field "nope" []]⟩]⟩⟩

/-- `fragment D on T { name }`, a well-formed fragment after the bad one. -/
def dFile : FragmentFile :=
  ⟨"src/gql/d/d.fragment.gql", "fragment D on T\x7bname\x7d",
   ⟨[.fragmentDef ⟨"D", "T", [.field "name" []]⟩]⟩⟩

/-- Missing-field scenario: the bad fragment comes first. -/
def wBadField : World :=
  baseWorld tSchema [badFieldFile, dFile] []

/-- A `.fragment.gql` file holding a document with no fragment definition. -/
def noFragFile : FragmentFile :=
  ⟨"src/gql/q/q.fragment.gql", "query Q \x7b x \x7d", ⟨[.otherDef]⟩⟩

/-- No-fragment-definition scenario followed by a well-formed fragment. -/
def wNoFrag : World :=
  baseWorld tSchema [noFragFile, xFile] []

/-- Schema with `P { pet: Pet, name: String }`; no fragment file exists for
`Pet`. -/
def petSchema : Schema :=
  ⟨[("P", ⟨.objectType,
      [("pet", .base ⟨"Pet", .objectType⟩),
       ("name", .base ⟨"String", .scalarType⟩)]⟩)]⟩

/-- `fragment H on P { pet { x } name }`. -/
def petFile : FragmentFile :=
  ⟨"src/gql/h/h.fragment.gql", "fragment H on P\x7bpet\x7bx\x7d name\x7d",
   ⟨[.fragmentDef ⟨"H", "P", [.field "pet" [.field "x" []], .field "name" []]⟩]⟩⟩

/-- Missing-nested-fragment scenario. -/
def wPet : World :=
  baseWorld petSchema [petFile] []

/-- Raw text of `fragment F on friend { ...G friend { id } }`: the type
condition is named `friend` and the first top-level selection is a spread. -/
def doc0text : String :=
  "fragment F on friend \x7b ...G friend \x7b id \x7d \x7d"

/-- Its top-level selections: the spread `G`, then the field `friend` whose
sub-selection begins with the plain field `id`. -/
def doc0sels : List Selection :=
  [.spread "G", .field "friend" [.field "id" []]]

/-- Does a sub-selection begin with a fragment spread? -/
def startsWithSpread : List Selection → Bool
  | .spread _ :: _ => true
  | _ => false

/-- The claim-side property for C10: every field of the fragment is
associated with a nested fragment name only when a spread is the first item
of that field's sub-selection. -/
def assocOnlyWhenSubSelectionLeadsWithSpread (text : String)
    (sels : List Selection) : Bool :=
  sels.all fun s =>
    match s with
    | .field n sub => startsWithSpread sub || (lookupLast (getFieldFragmentMap text) n).isNone
    | .spread _ => true

/-- The classification rules exactly as the specification lists them, in
order: name equals `id`; base is a built-in or declared scalar; base is an
enum; otherwise object. -/
def classRules : List ((String → GQLNamed → Bool) × FieldClass) :=
  [(fun n _ => n == "id", .idField),
   (fun _ b => isScalar b, .scalarField),
   (fun _ b => isEnum b, .enumField),
   (fun _ _ => true, .objectField)]

/-- First-match-wins evaluation of a rule list. -/
def firstMatchClass :
    List ((String → GQLNamed → Bool) × FieldClass) → String → GQLNamed → FieldClass
  | [], _, _ => .objectField
  | (p, c) :: rest, n, b => if p n b then c else firstMatchClass rest n b

/-- The top-level spreads whose factory file the glob finds (the ones the
spreads loop does not skip). -/
def includedSpreads (w : World) (spreads : List String) : List String :=
  spreads.filter fun s => (globFactoryFile w (toKebabCase s ++ ".factory.ts")).isSome

/-- The lines of a generated artifact. -/
def artifactLines (r : RunResult World) (p : String) : List String :=
  ((splitChar '\n' ((artifactAt r p).getD "").data).map String.mk)

/-- A no-op stand-in for the recursive `generateFactory` reference, for
statements about a single selection-loop step that never recurses. -/
def recNoOp : World → String → RunResult World :=
  fun w _ => RunResult.ok w []

/-- The selection-loop context built while processing the self-referential
fragment. -/
def cycCtx : SelCtx where
  typeName := "A"
  typeFields := [("friend", .base ⟨"A", .objectType⟩)]
  fieldMap := getFieldFragmentMap cycText
  fragmentDir := dirname cycPath
  idsRelativePath := toRelativeImport (dirname cycPath) idsPath

/-- The selection-loop state on entry for the self-referential fragment. -/
def cycSt0 : SelState where
  w := wCyc
  idsMem := []
  imports := ["import \x7b AFragment \x7d from \"./a.fragment.generated\";"]
  nestedImports := []
  fields := []

/-- The selection-loop state after the nested generation for `friend`
returned the world `w2`. -/
def cycSt1 (w2 : World) : SelState where
  w := w2
  idsMem := []
  imports := cycSt0.imports
  nestedImports :=
    ["import \x7b createMockA \x7d from \"" ++
      toRelativeImport (dirname cycPath) "src/gql/a/a.factory.ts" ++ "\";"]
  fields := ["  friend: createMockA(),"]

/-- A selection-loop context over the `User` type. -/
def ctxU : SelCtx where
  typeName := "User"
  typeFields := [("email", .base ⟨"String", .scalarType⟩)]
  fieldMap := []
  fragmentDir := "src/gql/u"
  idsRelativePath := "../ids"

/-- An empty selection-loop state over `wDetA`. -/
def stU : SelState where
  w := wDetA
  idsMem := []
  imports := []
  nestedImports := []
  fields := []

/-- The selection-loop context built while processing `fragment H on P`. -/
def ctxPet : SelCtx where
  typeName := "P"
  typeFields := [("pet", .base ⟨"Pet", .objectType⟩), ("name", .base ⟨"String", .scalarType⟩)]
  fieldMap := getFieldFragmentMap "fragment H on P\x7bpet\x7bx\x7d name\x7d"
  fragmentDir := "src/gql/h"
  idsRelativePath := "../ids"

/-- An empty selection-loop state over `wPet`. -/
def stPet : SelState where
  w := wPet
  idsMem := []
  imports := []
  nestedImports := []
  fields := []

set_option maxRecDepth 100000

theorem withLog_nil {α : Type} (r : RunResult α) : r.withLog [] = r := by
  cases r <;> simp [RunResult.withLog]

theorem withLog_ok_inv {α : Type} {pre lg : List String} {r : RunResult α} {a : α}
    (h : r.withLog pre = .ok a lg) : ∃ lg2, r = .ok a lg2 ∧ lg = pre ++ lg2 := by
  cases r with
  | ok b lg2 =>
    simp [RunResult.withLog] at h
    exact ⟨lg2, by simp [h.1], h.2.symm⟩
  | crash m w lg2 => simp [RunResult.withLog] at h
  | outOfFuel => simp [RunResult.withLog] at h

theorem lookupStr_append_right {α : Type} (k : String) (v : α) :
    ∀ l : List (String × α), lookupStr k l = none → lookupStr k (l ++ [(k, v)]) = some v := by
  intro l
  induction l with
  | nil => intro _; simp [lookupStr]
  | cons e rest ih =>
    intro h
    match e with
    | (k2, v2) =>
      unfold lookupStr at h ⊢
      by_cases hk : (k == k2) = true
      · simp [hk] at h
      · simp only [hk, if_false, List.cons_append]
        simp only [hk] at h
        simpa [hk] using ih (by simpa using h)

/-- C9: for every selected field, the generator's classification is exactly
first-match evaluation of the fixed rule order (name `id`, then scalar, then
enum, else object), and a field named `id` is classified `idField` no matter
what its base type is. -/
theorem C9_classify_first_match :
    (∀ (n : String) (b : GQLNamed), classify n b = firstMatchClass classRules n b) ∧
      (∀ b : GQLNamed, classify "id" b = .idField) := by
  constructor
  · intro n b
    rfl
  · intro b
    rfl

/-- C4: `handleIdField` is idempotent on the ids registry — an existing
entry is returned unchanged (no duplicate, no reorder), an absent entry is
created as the 3-element sequence `["1","2","3"]` for a string-like id
scalar (`String` or `ID`) and `[1,2,3]` otherwise — and the emitted id
expression always selects element 0 of the sequence. -/
theorem C4_handleIdField_registry :
    ∀ (tn : String) (obj : List (String × IdSeq)) (bn p : String),
      ((lookupStr (toCamelCase tn) obj).isSome = true → (handleIdField tn obj bn p).1 = obj) ∧
      (lookupStr (toCamelCase tn) obj = none →
        (handleIdField tn obj bn p).1 =
          obj ++ [(toCamelCase tn,
            if bn == "String" || bn == "ID" then IdSeq.strs ["1", "2", "3"]
            else IdSeq.nums [1, 2, 3])]) ∧
      ((handleIdField tn (handleIdField tn obj bn p).1 bn p).1 =
        (handleIdField tn obj bn p).1) ∧
      (handleIdField tn obj bn p).2.1 = "  id: ids." ++ toCamelCase tn ++ "[0]," := by
  intro tn obj bn p
  refine ⟨fun h => ?_, fun h => ?_, ?_, rfl⟩
  · simp [handleIdField, h]
  · simp [handleIdField, h]
  · by_cases h : (lookupStr (toCamelCase tn) obj).isSome = true
    · simp [handleIdField, h]
    · have hn : lookupStr (toCamelCase tn) obj = none := by
        cases he : lookupStr (toCamelCase tn) obj
        · rfl
        · rw [he] at h; simp at h
      have h2 :
          lookupStr (toCamelCase tn)
            (obj ++ [(toCamelCase tn,
              if bn == "String" || bn == "ID" then IdSeq.strs ["1", "2", "3"]
              else IdSeq.nums [1, 2, 3])]) =
            some (if bn == "String" || bn == "ID" then IdSeq.strs ["1", "2", "3"]
              else IdSeq.nums [1, 2, 3]) :=
        lookupStr_append_right _ _ obj hn
      have hfirst : (handleIdField tn obj bn p).1 =
          obj ++ [(toCamelCase tn,
            if bn == "String" || bn == "ID" then IdSeq.strs ["1", "2", "3"]
            else IdSeq.nums [1, 2, 3])] := by
        simp only [handleIdField]
        rw [hn]
        rfl
      rw [hfirst]
      simp only [handleIdField]
      rw [h2]
      rfl

/-- C4 witness: concrete run for type `User` with an `ID` id scalar on an
empty registry. -/
theorem C4_handleIdField_registry_witness :
    (handleIdField "User" [] "ID" "../ids").1 = [("user", IdSeq.strs ["1", "2", "3"])] ∧
      (handleIdField "User" (handleIdField "User" [] "ID" "../ids").1 "ID" "../ids").1 =
        (handleIdField "User" [] "ID" "../ids").1 ∧
      (handleIdField "User" [] "ID" "../ids").2.1 = "  id: ids.user[0]," := by
  have h := C4_handleIdField_registry "User" [] "ID" "../ids"
  refine ⟨?_, h.2.2.1, h.2.2.2⟩
  have h2 := h.2.1 rfl
  simpa using h2

/-- C5 counterexample: a run over two fragment documents persists the ids
registry twice — once after each per-fragment `generateFactory` invocation,
i.e. mid-run — not exactly once after all documents. -/
theorem C5_counterexample :
    saveCountAfter (mainRun 3 wTwo) = some 2 ∧
    finalLog (mainRun 3 wTwo) = some
      ["🔧 Generating factory for src/gql/x/x.fragment.gql",
       "✅ Generated createMockX at src/gql/x/x.factory.ts",
       "💾 ids.ts updated",
       "🔧 Generating factory for src/gql/y/y.fragment.gql",
       "✅ Generated createMockY at src/gql/y/y.factory.ts",
       "💾 ids.ts updated"] ∧
    (2 : Nat) ≠ 1 := by
  exact ⟨rfl, rfl, by decide⟩

/-- C5 amended: the registry is persisted exactly once per `generateFactory`
invocation, after that invocation's file list is processed (and not at all
if the invocation crashes); `main` invokes `generateFactory` once per
discovered fragment, so one invocation over both documents saves once. -/
theorem C5_saves_once_per_invocation :
    (∀ (fuel : Nat) (w : World) (target : Option String),
      generateFactory (fuel + 1) w target =
        match processFiles (fun w2 p => generateFactory fuel w2 (some p)) w w.idsDisk
            (targetFiles w target) with
        | .ok (w2, idsMem) lg =>
          .ok { w2 with idsDisk := idsMem, savedCount := w2.savedCount + 1 }
            (lg ++ ["💾 ids.ts updated"])
        | .crash m wc lg => .crash m wc lg
        | .outOfFuel => .outOfFuel) ∧
    saveCountAfter (generateFactory 2 wTwo none) = some 1 := by
  exact ⟨fun fuel w target => rfl, rfl⟩

/-- C7 amended: a document with no fragment definition is silently skipped —
no error of any kind is raised, the world and registry are untouched, no
diagnostic is printed — and the loop simply proceeds to the next document. -/
theorem C7_skip_documents_without_fragment :
    ∀ (rec : World → String → RunResult World) (w : World)
      (ids : List (String × IdSeq)) (p : String) (file : FragmentFile),
      findFile w p = some file → findFragment file.doc = none →
      processOneFile rec w ids p = .ok (w, ids) [] ∧
        ∀ rest, processFiles rec w ids (p :: rest) = processFiles rec w ids rest := by
  intro rec w ids p file h1 h2
  have hone : processOneFile rec w ids p = .ok (w, ids) [] := by
    simp only [processOneFile, h1, h2]
  refine ⟨hone, fun rest => ?_⟩
  simp only [processFiles, hone]
  exact withLog_nil _

/-- C7 counterexample: a `.fragment.gql` file holding only a query is
processed without any `ParseError` — the run's log has no diagnostic for it,
the registry is even saved for the empty invocation, and the run then
generates the next fragment normally. -/
theorem C7_counterexample :
    finalLog (mainRun 3 wNoFrag) = some
      ["🔧 Generating factory for src/gql/q/q.fragment.gql",
       "💾 ids.ts updated",
       "🔧 Generating factory for src/gql/x/x.fragment.gql",
       "✅ Generated createMockX at src/gql/x/x.factory.ts",
       "💾 ids.ts updated"] ∧
    (finalWorld (mainRun 3 wNoFrag)).map (fun w => w.factoryFiles.map Prod.fst) =
      some ["src/gql/x/x.factory.ts"] := by
  exact ⟨rfl, rfl⟩

/-- C7 witness: the skip theorem applied to the concrete no-fragment file. -/
theorem C7_witness :
    processOneFile recNoOp wNoFrag [] "src/gql/q/q.fragment.gql" = .ok (wNoFrag, []) [] ∧
      processFiles recNoOp wNoFrag [] ["src/gql/q/q.fragment.gql", "src/gql/x/x.fragment.gql"] =
        processFiles recNoOp wNoFrag [] ["src/gql/x/x.fragment.gql"] := by
  have h := C7_skip_documents_without_fragment recNoOp wNoFrag [] "src/gql/q/q.fragment.gql"
    noFragFile rfl rfl
  exact ⟨h.1, h.2 _⟩

/-- C6 amended: no `SchemaError` exists.  A fragment whose type condition is
absent from the schema is silently skipped (no failure at all); a fragment
selecting a field absent from its type raises an uncaught TypeError that
aborts every remaining file of the invocation, not just that fragment. -/
theorem C6_no_schema_error :
    ∀ (rec : World → String → RunResult World) (w : World)
      (ids : List (String × IdSeq)) (p : String) (file : FragmentFile) (frag : FragmentDef),
      (findFile w p = some file → findFragment file.doc = some frag →
        w.schema.getType frag.typeCondition = none →
        processOneFile rec w ids p = .ok (w, ids) []) ∧
      (∀ (tdef : TypeDef) (fName : String) (sub restSel : List Selection),
        findFile w p = some file → findFragment file.doc = some frag →
        w.schema.getType frag.typeCondition = some tdef →
        frag.selections = .field fName sub :: restSel →
        lookupStr fName tdef.fields = none →
        processOneFile rec w ids p =
          .crash ("TypeError: Cannot read properties of undefined (reading type) for field "
            ++ fName) w []) ∧
      (∀ (m : String) (wc : World) (lg : List String) (rest : List String),
        processOneFile rec w ids p = .crash m wc lg →
        processFiles rec w ids (p :: rest) = .crash m wc lg) := by
  intro rec w ids p file frag
  refine ⟨fun h1 h2 h3 => ?_, fun tdef fName sub restSel h1 h2 h3 h4 h5 => ?_,
    fun m wc lg rest h => ?_⟩
  · simp only [processOneFile, h1, h2, h3]
  · simp only [processOneFile, h1, h2, h3, h4, processSelections, h5]
  · simp only [processFiles, h]

/-- C6 counterexample: the missing-type fragment produces a clean run with no
error and no artifact; the missing-field fragment kills the whole run — the
following well-formed fragment is never generated and no save happens. -/
theorem C6_counterexample :
    finalLog (generateFactory 1 wGhost none) = some ["💾 ids.ts updated"] ∧
    (finalWorld (generateFactory 1 wGhost none)).map (fun w => w.factoryFiles) = some [] ∧
    finalLog (mainRun 3 wBadField) = some
      ["🔧 Generating factory for src/gql/b/b.fragment.gql",
       "💥 Error running factory generator: TypeError: Cannot read properties of undefined (reading type) for field nope"] ∧
    (finalWorld (mainRun 3 wBadField)).map (fun w => w.factoryFiles) = some [] ∧
    saveCountAfter (mainRun 3 wBadField) = some 0 := by
  exact ⟨rfl, rfl, rfl, rfl, rfl⟩

/-- C6 witness: the amended theorem applied to the concrete ghost-type and
missing-field fragments. -/
theorem C6_witness :
    processOneFile recNoOp wGhost [] "src/gql/g/g.fragment.gql" = .ok (wGhost, []) [] ∧
      processOneFile recNoOp wBadField [] "src/gql/b/b.fragment.gql" =
        .crash ("TypeError: Cannot read properties of undefined (reading type) for field "
          ++ "nope") wBadField [] ∧
      processFiles recNoOp wBadField [] ["src/gql/b/b.fragment.gql", "src/gql/d/d.fragment.gql"] =
        .crash ("TypeError: Cannot read properties of undefined (reading type) for field "
          ++ "nope") wBadField [] := by
  have hg := (C6_no_schema_error recNoOp wGhost [] "src/gql/g/g.fragment.gql" ghostFile
    ⟨"G", "Ghost", [.field "id" []]⟩).1 rfl rfl rfl
  have hb := (C6_no_schema_error recNoOp wBadField [] "src/gql/b/b.fragment.gql" badFieldFile
    ⟨"B", "T", [.field "nope" []]⟩).2.1 ⟨.objectType, [("name", .base ⟨"String", .scalarType⟩)]⟩
    "nope" [] [] rfl rfl rfl rfl rfl
  have hc := (C6_no_schema_error recNoOp wBadField [] "src/gql/b/b.fragment.gql" badFieldFile
    ⟨"B", "T", [.field "nope" []]⟩).2.2 _ wBadField [] ["src/gql/d/d.fragment.gql"] hb
  exact ⟨hg, hb, hc⟩

/-- C8 amended: an object field whose nested fragment document cannot be
located is silently dropped — the loop continues with the remaining fields
unchanged, prints nothing (no warning), and raises nothing. -/
theorem C8_missing_nested_fragment_soft_skip :
    ∀ (rec : World → String → RunResult World) (ctx : SelCtx) (st : SelState)
      (fName : String) (sub rest : List Selection) (ft : GQLType),
      lookupStr fName ctx.typeFields = some ft →
      classify fName (unwrapType ft) = .objectField →
      globFragment st.w
        (toKebabCase (toPascalCase ((lookupLast ctx.fieldMap fName).getD (unwrapType ft).name)) ++
          ".fragment.gql") = none →
      processSelections rec ctx st (.field fName sub :: rest) =
        processSelections rec ctx st rest := by
  intro rec ctx st fName sub rest ft h1 h2 h3
  simp only [processSelections, h1, h2, h3]

/-- C8 counterexample: the `pet` field with no `pet.fragment.gql` anywhere is
omitted from the artifact and the run logs no warning at all — the log holds
exactly the success and save lines, refuting the claimed warning. -/
theorem C8_counterexample :
    finalLog (generateFactory 1 wPet none) = some
      ["✅ Generated createMockH at src/gql/h/h.factory.ts", "💾 ids.ts updated"] ∧
    artifactAt (generateFactory 1 wPet none) "src/gql/h/h.factory.ts" = some
      ("import \x7b HFragment \x7d from \"./h.fragment.generated\";\n\nconst defaultH: HFragment = \x7b\n  name: \"alpha\",\n  __typename: \"P\",\n\x7d;\n\nexport const createMockH = (overwrites: Partial<HFragment> = \x7b\x7d): HFragment => (\x7b\n  ...defaultH,\n  ...overwrites,\n\x7d);") := by
  exact ⟨rfl, rfl⟩

/-- C8 witness: the soft-skip theorem applied to the concrete `pet` field. -/
theorem C8_witness :
    processSelections recNoOp ctxPet stPet
        [.field "pet" [.field "x" []], .field "name" []] =
      processSelections recNoOp ctxPet stPet [.field "name" []] :=
  C8_missing_nested_fragment_soft_skip recNoOp ctxPet stPet "pet" [.field "x" []]
    [.field "name" []] (.base ⟨"Pet", .objectType⟩) rfl rfl rfl

/-- C2: generation is not deterministic in its declared inputs.  Two worlds
with identical schema, fragment files, factory files, ids store and RNG
cursor — differing only in the external PRNG stream consumed by the faker
calls — produce different artifact bytes for the same fragment. -/
theorem C2_output_depends_on_prng :
    (wDetA.schema = wDetB.schema ∧ wDetA.fragmentFiles = wDetB.fragmentFiles ∧
      wDetA.factoryFiles = wDetB.factoryFiles ∧ wDetA.idsDisk = wDetB.idsDisk ∧
      wDetA.rngIx = wDetB.rngIx) ∧
    (artifactAt (generateFactory 2 wDetA none) "src/gql/u/u.factory.ts").isSome = true ∧
    artifactAt (generateFactory 2 wDetA none) "src/gql/u/u.factory.ts" ≠
      artifactAt (generateFactory 2 wDetB none) "src/gql/u/u.factory.ts" := by
  refine ⟨⟨rfl, rfl, rfl, rfl, rfl⟩, rfl, ?_⟩
  decide

theorem spreadsFold_fields (w : World) (dir : String) :
    ∀ (spreads nI fs : List String),
      (spreadsFold w dir spreads nI fs).2 =
        ((includedSpreads w spreads).map (fun s => "  ...createMock" ++ s ++ "(),")).reverse
          ++ fs := by
  intro spreads
  induction spreads with
  | nil => intro nI fs; simp [spreadsFold, includedSpreads]
  | cons s rest ih =>
    intro nI fs
    cases hg : globFactoryFile w (toKebabCase s ++ ".factory.ts") with
    | none =>
      simp only [spreadsFold, hg, includedSpreads, List.filter_cons, Option.isSome_none,
        Bool.false_eq_true, if_false]
      exact ih nI fs
    | some mp =>
      simp only [spreadsFold, hg, includedSpreads, List.filter_cons, Option.isSome_some,
        if_true, List.map_cons, List.reverse_cons]
      rw [ih]
      simp [includedSpreads]

theorem processSelections_fields_append :
    ∀ (rec : World → String → RunResult World) (ctx : SelCtx) (sels : List Selection)
      (st st2 : SelState) (lg : List String),
      processSelections rec ctx st sels = .ok st2 lg →
      ∃ parts : List (List String), st2.fields = st.fields ++ parts.flatten ∧
        parts.length = sels.length ∧ ∀ part ∈ parts, part.length ≤ 1 := by
  intro rec ctx sels
  induction sels with
  | nil =>
    intro st st2 lg h
    simp only [processSelections, RunResult.ok.injEq] at h
    exact ⟨[], by simp [← h.1], rfl, by simp⟩
  | cons s rest ih =>
    intro st st2 lg h
    cases s with
    | spread n =>
      simp only [processSelections] at h
      obtain ⟨parts, h1, h2, h3⟩ := ih _ _ _ h
      refine ⟨[] :: parts, by simpa using h1, by simpa using h2, ?_⟩
      intro part hp
      rcases List.mem_cons.mp hp with hp | hp
      · simp [hp]
      · exact h3 part hp
    | field fName sub =>
      simp only [processSelections] at h
      split at h
      next hl => exact absurd h (by simp)
      next ft hl =>
        split at h
        next hc =>
          obtain ⟨parts, h1, h2, h3⟩ := ih _ _ _ h
          refine ⟨[(GqlGen.handleIdField ctx.typeName st.idsMem (GqlGen.unwrapType ft).name ctx.idsRelativePath).2.1] :: parts, by simpa using h1, by simpa using h2, ?_⟩
          intro part hp
          rcases List.mem_cons.mp hp with hp | hp
          · simp [hp]
          · exact h3 part hp
        next hc =>
          obtain ⟨parts, h1, h2, h3⟩ := ih _ _ _ h
          refine ⟨[if GqlGen.isListTypeDeep ft then "  " ++ fName ++ ": [" ++ GqlGen.getFakerMockForScalar (st.w.rngFaker st.w.rngIx) (GqlGen.unwrapType ft).name fName ++ "]," else "  " ++ fName ++ ": " ++ GqlGen.getFakerMockForScalar (st.w.rngFaker st.w.rngIx) (GqlGen.unwrapType ft).name fName ++ ","] :: parts, by simpa using h1, by simpa using h2, ?_⟩
          intro part hp
          rcases List.mem_cons.mp hp with hp | hp
          · simp [hp]
          · exact h3 part hp
        next hc =>
          obtain ⟨parts, h1, h2, h3⟩ := ih _ _ _ h
          refine ⟨["  " ++ fName ++ ": " ++ (GqlGen.resolveEnumAccess (st.w.tsFiles ++ st.w.factoryFiles) (GqlGen.unwrapType ft).name ctx.fragmentDir).value ++ ","] :: parts, by simpa using h1, by simpa using h2, ?_⟩
          intro part hp
          rcases List.mem_cons.mp hp with hp | hp
          · simp [hp]
          · exact h3 part hp
        next hc =>
          split at h
          next hg =>
            obtain ⟨parts, h1, h2, h3⟩ := ih _ _ _ h
            refine ⟨[] :: parts, by simpa using h1, by simpa using h2, ?_⟩
            intro part hp
            rcases List.mem_cons.mp hp with hp | hp
            · simp [hp]
            · exact h3 part hp
          next nf hg =>
            split at h
            next he => exact absurd h (by simp)
            next nn he =>
              split at h
              next => exact absurd h (by simp)
              next => exact absurd h (by simp)
              next w2 lg2 heq =>
                obtain ⟨lg3, hr, hlg⟩ := withLog_ok_inv h
                obtain ⟨parts, h1, h2, h3⟩ := ih _ _ _ hr
                refine ⟨[if GqlGen.isListTypeDeep ft then "  " ++ fName ++ ": [" ++ ("createMock" ++ GqlGen.toPascalCase nn) ++ "()]," else "  " ++ fName ++ ": " ++ ("createMock" ++ GqlGen.toPascalCase nn) ++ "(),"] :: parts, by simpa using h1, by simpa using h2, ?_⟩
                intro part hp
                rcases List.mem_cons.mp hp with hp | hp
                · simp [hp]
                · exact h3 part hp

/-- C3 counterexample: with two top-level spreads declared in the order
`G1, G2`, the emitted default object lists the spread for `G2` before the
spread for `G1` — the `unshift` loop reverses declaration order, refuting
the claimed "spreads in declaration order". -/
theorem C3_counterexample :
    artifactLines (generateFactory 2 wSpread (some "src/gql/c/c.fragment.gql"))
        "src/gql/c/c.factory.ts" =
      ["import \x7b CFragment \x7d from \"./c.fragment.generated\";",
       "import \x7b createMockG1 \x7d from \"../g1/g1.factory\";",
       "import \x7b createMockG2 \x7d from \"../g2/g2.factory\";",
       "",
       "const defaultC: CFragment = \x7b",
       "  ...createMockG2(),",
       "  ...createMockG1(),",
       "  name: \"alpha\",",
       "  __typename: \"Org\",",
       "\x7d;",
       "",
       "export const createMockC = (overwrites: Partial<CFragment> = \x7b\x7d): CFragment => (\x7b",
       "  ...defaultC,",
       "  ...overwrites,",
       "\x7d);"] ∧
    (artifactLines (generateFactory 2 wSpread (some "src/gql/c/c.fragment.gql"))
        "src/gql/c/c.factory.ts").indexOf "  ...createMockG2()," <
      (artifactLines (generateFactory 2 wSpread (some "src/gql/c/c.fragment.gql"))
        "src/gql/c/c.factory.ts").indexOf "  ...createMockG1()," := by
  exact ⟨rfl, by decide⟩

/-- C3 amended: the emitted default object lists the spread references first
but in reverse declaration order (each included spread is unshifted in
turn), then the explicitly selected fields in declaration order (the
selection loop appends at most one line per selection, in list order), and
the `__typename` discriminator as the single last field. -/
theorem C3_amended_order :
    (∀ (w : World) (dir : String) (spreads nI fs : List String) (tname : String),
      (spreadsFold w dir spreads nI fs).2 ++ ["  __typename: \"" ++ tname ++ "\","] =
        ((includedSpreads w spreads).map (fun s => "  ...createMock" ++ s ++ "(),")).reverse ++
          fs ++ ["  __typename: \"" ++ tname ++ "\","]) ∧
    (∀ (rec : World → String → RunResult World) (ctx : SelCtx) (sels : List Selection)
      (st st2 : SelState) (lg : List String),
      processSelections rec ctx st sels = .ok st2 lg →
      ∃ parts : List (List String), st2.fields = st.fields ++ parts.flatten ∧
        parts.length = sels.length ∧ ∀ part ∈ parts, part.length ≤ 1) := by
  constructor
  · intro w dir spreads nI fs tname
    rw [spreadsFold_fields]
  · exact processSelections_fields_append

/-- C3 witness: the field-order property instantiated on a concrete one-field
selection list. -/
theorem C3_witness :
    ∃ (st2 : SelState) (lg : List String) (parts : List (List String)),
      processSelections recNoOp ctxU stU [.field "email" []] = .ok st2 lg ∧
        st2.fields = stU.fields ++ parts.flatten ∧ parts.length = 1 ∧
        ∀ part ∈ parts, part.length ≤ 1 := by
  obtain ⟨parts, h1, h2, h3⟩ :=
    C3_amended_order.2 recNoOp ctxU [.field "email" []] stU _ _ rfl
  exact ⟨_, _, parts, rfl, h1, h2, h3⟩

theorem cyc_processFiles_step (rec : World → String → RunResult World)
    (h : rec wCyc cycPath = .outOfFuel) :
    processFiles rec wCyc wCyc.idsDisk (targetFiles wCyc (some cycPath)) = .outOfFuel := by
  have hA : processFiles rec wCyc wCyc.idsDisk (targetFiles wCyc (some cycPath)) =
      match processOneFile rec wCyc [] cycPath with
      | .ok (w2, ids2) lg => (processFiles rec w2 ids2 []).withLog lg
      | .crash m wc lg => .crash m wc lg
      | .outOfFuel => .outOfFuel := rfl
  have hB : processOneFile rec wCyc [] cycPath =
      match processSelections rec cycCtx cycSt0
          [Selection.field "friend" [Selection.spread "A"]] with
      | .crash m wc lg => .crash m wc lg
      | .outOfFuel => .outOfFuel
      | .ok st lg =>
        .ok (writeFactoryFile st.w "src/gql/a/a.factory.ts"
            (mkFileContent st.imports st.nestedImports "defaultA" "AFragment" "createMockA"
              (st.fields ++ ["  __typename: \"A\","])), st.idsMem)
          (lg ++ ["✅ Generated createMockA at src/gql/a/a.factory.ts"]) := rfl
  have hC : processSelections rec cycCtx cycSt0
      [Selection.field "friend" [Selection.spread "A"]] =
      match (rec wCyc cycPath).withLog ["🔁 Generating nested factory for A"] with
      | .crash m wc lg => .crash m wc lg
      | .outOfFuel => .outOfFuel
      | .ok w2 lg => .ok (cycSt1 w2) (lg ++ []) := rfl
  rw [hA, hB, hC, h]
  rfl

/-- C1: on the self-referential schema `type A { friend: A }` with fragment
`fragment A on A { friend { ...A } }` and no pre-existing factory file,
`generateFactory` re-enters itself on the identical state before writing the
factory, so it never terminates (it exhausts every fuel bound instead of
emitting a shallow reference) — and so does a full `main` run. -/
theorem C1_cycle_nonterminating :
    (∀ fuel : Nat, generateFactory fuel wCyc (some cycPath) = .outOfFuel) ∧
      (∀ fuel : Nat, mainRun fuel wCyc = .outOfFuel) := by
  have key : ∀ fuel : Nat, generateFactory fuel wCyc (some cycPath) = .outOfFuel := by
    intro fuel
    induction fuel with
    | zero => rfl
    | succ k ih =>
      have hstep : generateFactory (k + 1) wCyc (some cycPath) =
          match processFiles (fun w2 p => generateFactory k w2 (some p)) wCyc wCyc.idsDisk
              (targetFiles wCyc (some cycPath)) with
          | .ok (w2, idsMem) lg =>
            .ok { w2 with idsDisk := idsMem, savedCount := w2.savedCount + 1 }
              (lg ++ ["💾 ids.ts updated"])
          | .crash m wc lg => .crash m wc lg
          | .outOfFuel => .outOfFuel := rfl
      rw [hstep, cyc_processFiles_step (fun w2 p => generateFactory k w2 (some p)) ih]
  refine ⟨key, fun fuel => ?_⟩
  have hmain : mainRun fuel wCyc =
      match generateFactory fuel wCyc (some cycPath) with
      | .ok w2 lg =>
        (mainLoop fuel w2 []).withLog (("🔧 Generating factory for " ++ cycPath) :: lg)
      | .crash m wc lg =>
        .ok wc (("🔧 Generating factory for " ++ cycPath) :: lg ++
          ["💥 Error running factory generator: " ++ m])
      | .outOfFuel => .outOfFuel := rfl
  rw [hmain, key fuel]

theorem takeWord_spec : ∀ l : List Char,
    (takeWord l).1 ++ (takeWord l).2 = l ∧ ∀ c ∈ (takeWord l).1, isWordChar c = true := by
  intro l
  induction l with
  | nil => simp [takeWord]
  | cons c cs ih =>
    by_cases hc : isWordChar c
    · refine ⟨?_, ?_⟩
      · simp only [takeWord, hc, if_true]
        simpa using ih.1
      · simp only [takeWord, hc, if_true]
        intro x hx
        rcases List.mem_cons.mp hx with hx | hx
        · rw [hx]; exact hc
        · exact ih.2 x hx
    · simp [takeWord, hc]

theorem takeSpaces_spec : ∀ l : List Char,
    (takeSpaces l).1 ++ (takeSpaces l).2 = l ∧ ∀ c ∈ (takeSpaces l).1, isSpaceChar c = true := by
  intro l
  induction l with
  | nil => simp [takeSpaces]
  | cons c cs ih =>
    by_cases hc : isSpaceChar c
    · refine ⟨?_, ?_⟩
      · simp only [takeSpaces, hc, if_true]
        simpa using ih.1
      · simp only [takeSpaces, hc, if_true]
        intro x hx
        rcases List.mem_cons.mp hx with hx | hx
        · rw [hx]; exact hc
        · exact ih.2 x hx
    · simp [takeSpaces, hc]

theorem matchFieldSpreadAt_spec :
    ∀ (l w g rest : List Char), matchFieldSpreadAt l = some (w, g, rest) →
      ∃ s1 s2, l = w ++ s1 ++ '\x7b' :: (s2 ++ '.' :: '.' :: '.' :: (g ++ rest)) ∧
        w ≠ [] ∧ (∀ c ∈ w, isWordChar c = true) ∧ (∀ c ∈ s1, isSpaceChar c = true) ∧
        (∀ c ∈ s2, isSpaceChar c = true) ∧ g ≠ [] ∧ (∀ c ∈ g, isWordChar c = true) := by
  intro l w g rest h
  unfold matchFieldSpreadAt at h
  split at h
  next => exact absurd h (by simp)
  next w0 r1 hw0 htw =>
    split at h
    next s1x r2 hts =>
      split at h
      next s2x r3 hts2 =>
        split at h
        next => exact absurd h (by simp)
        next g0 r4 hg0 htw3 =>
          have hinj : w0 = w ∧ g0 = g ∧ r4 = rest := by simpa using h
          obtain ⟨hw, hg, hr⟩ := hinj
          subst hw hg hr
          have h1 := (takeWord_spec l).1
          have h1w := (takeWord_spec l).2
          rw [htw] at h1 h1w
          simp only at h1 h1w
          have h2 := (takeSpaces_spec r1).1
          have h2w := (takeSpaces_spec r1).2
          rw [hts] at h2 h2w
          simp only at h2 h2w
          have h3 := (takeSpaces_spec r2).1
          have h3w := (takeSpaces_spec r2).2
          rw [hts2] at h3 h3w
          simp only at h3 h3w
          have h4 := (takeWord_spec r3).1
          have h4w := (takeWord_spec r3).2
          rw [htw3] at h4 h4w
          simp only at h4 h4w
          subst h1
          subst h2
          subst h3
          subst h4
          refine ⟨s1x, s2x, by simp [List.append_assoc], fun he => hw0 he, h1w, h2w, h3w,
            fun he => hg0 he, h4w⟩
      next hno => exact absurd h (by simp)
    next hno => exact absurd h (by simp)

theorem lookupLast_mem (ps : List (String × String)) (k v : String)
    (h : lookupLast ps k = some v) : (k, v) ∈ ps := by
  unfold lookupLast at h
  have hx : v ∈ ((ps.filter fun p => p.1 == k).map fun p => p.2).getLast? :=
    Option.mem_def.mpr h
  obtain ⟨hne, heq⟩ := List.mem_getLast?_eq_getLast hx
  have hv : v ∈ (ps.filter fun p => p.1 == k).map fun p => p.2 :=
    heq ▸ List.getLast_mem hne
  obtain ⟨p, hpmem, hpv⟩ := List.mem_map.mp hv
  have hpk := List.mem_filter.mp hpmem
  obtain ⟨p1, p2⟩ := p
  have hk : p1 = k := by simpa using hpk.2
  have hv2 : p2 = v := hpv
  rw [← hk, ← hv2]
  exact hpk.1

theorem scanPairs_mem :
    ∀ (fuel : Nat) (l : List Char) (f g : String), (f, g) ∈ scanPairs fuel l →
      ∃ pre s1 s2 post,
        l = pre ++ f.data ++ s1 ++ ['\x7b'] ++ s2 ++ ['.', '.', '.'] ++ g.data ++ post ∧
        f.data ≠ [] ∧ (∀ c ∈ f.data, isWordChar c = true) ∧
        (∀ c ∈ s1, isSpaceChar c = true) ∧ (∀ c ∈ s2, isSpaceChar c = true) ∧
        g.data ≠ [] ∧ (∀ c ∈ g.data, isWordChar c = true) := by
  intro fuel
  induction fuel with
  | zero => intro l f g h; simp [scanPairs] at h
  | succ k ih =>
    intro l f g h
    cases l with
    | nil => simp [scanPairs] at h
    | cons c cs =>
      simp only [scanPairs] at h
      split at h
      next w g0 rest hm =>
        rcases List.mem_cons.mp h with hh | hh
        · have hf : f = String.mk w ∧ g = String.mk g0 := by
            constructor
            · exact congrArg Prod.fst hh
            · exact congrArg Prod.snd hh
          obtain ⟨s1, s2, heq, hwne, hww, hs1, hs2, hgne, hgw⟩ :=
            matchFieldSpreadAt_spec (c :: cs) w g0 rest hm
          refine ⟨[], s1, s2, rest, ?_, ?_, ?_, hs1, hs2, ?_, ?_⟩
          · rw [hf.1, hf.2]
            simpa [List.append_assoc] using heq
          · rw [hf.1]; exact hwne
          · rw [hf.1]; exact hww
          · rw [hf.2]; exact hgne
          · rw [hf.2]; exact hgw
        · obtain ⟨pre, s1, s2, post, heq2, hfne, hfw, hs1, hs2, hgne, hgw⟩ := ih rest f g hh
          obtain ⟨s1b, s2b, heq, hwne, hww, hs1b, hs2b, hgne0, hgw0⟩ :=
            matchFieldSpreadAt_spec (c :: cs) w g0 rest hm
          refine ⟨w ++ s1b ++ ['\x7b'] ++ s2b ++ ['.', '.', '.'] ++ g0 ++ pre, s1, s2, post,
            ?_, hfne, hfw, hs1, hs2, hgne, hgw⟩
          rw [heq, heq2]
          simp [List.append_assoc]
      next hm =>
        obtain ⟨pre, s1, s2, post, heq2, hfne, hfw, hs1, hs2, hgne, hgw⟩ := ih cs f g h
        refine ⟨c :: pre, s1, s2, post, ?_, hfne, hfw, hs1, hs2, hgne, hgw⟩
        rw [heq2]
        simp

/-- C10 counterexample: in `fragment F on friend { ...G friend { id } }` the
field `friend` has a sub-selection beginning with the plain field `id`, yet
the text scan associates `friend` with `G` — the match comes from the type
condition followed by the top-level spread — so nested resolution searches
for `G` instead of falling back to the base type name. -/
theorem C10_counterexample :
    assocOnlyWhenSubSelectionLeadsWithSpread doc0text doc0sels = false ∧
    lookupLast (getFieldFragmentMap doc0text) "friend" = some "G" ∧
    toPascalCase ((lookupLast (getFieldFragmentMap doc0text) "friend").getD "friend") = "G" := by
  exact ⟨rfl, rfl, rfl⟩

/-- C10 amended: a field is associated with a nested fragment name exactly
when the raw document text contains a word equal to the field's name
followed by optional whitespace, an opening brace, optional whitespace and a
spread token — which covers a spread leading the field's sub-selection but
also unrelated text such as the type condition line; when no such textual
occurrence exists for the name, no association is recorded and resolution
falls back to the field's base type name. -/
theorem C10_amended_assoc_only_textual :
    (∀ (m : List (String × String)) (f b : String), lookupLast m f = none →
      toPascalCase ((lookupLast m f).getD b) = toPascalCase b) ∧
    (∀ (content : String) (f g : String),
      lookupLast (getFieldFragmentMap content) f = some g →
      ∃ pre s1 s2 post,
        content.data =
          pre ++ f.data ++ s1 ++ ['\x7b'] ++ s2 ++ ['.', '.', '.'] ++ g.data ++ post ∧
        f.data ≠ [] ∧ (∀ c ∈ f.data, isWordChar c = true) ∧
        (∀ c ∈ s1, isSpaceChar c = true) ∧ (∀ c ∈ s2, isSpaceChar c = true) ∧
        g.data ≠ [] ∧ (∀ c ∈ g.data, isWordChar c = true)) := by
  constructor
  · intro m f b h
    rw [h]
    rfl
  · intro content f g h
    exact scanPairs_mem content.length content.data f g (lookupLast_mem _ _ _ h)

/-- C10 witness: the fallback applied to an empty map, and the textual
decomposition extracted for the association recorded in the counterexample
document. -/
theorem C10_witness :
    toPascalCase ((lookupLast [] "friend").getD "Pet") = toPascalCase "Pet" ∧
    (∃ pre s1 s2 post,
      doc0text.data =
        pre ++ "friend".data ++ s1 ++ ['\x7b'] ++ s2 ++ ['.', '.', '.'] ++ "G".data ++ post ∧
      "friend".data ≠ [] ∧ (∀ c ∈ "friend".data, isWordChar c = true) ∧
      (∀ c ∈ s1, isSpaceChar c = true) ∧ (∀ c ∈ s2, isSpaceChar c = true) ∧
      "G".data ≠ [] ∧ (∀ c ∈ "G".data, isWordChar c = true)) := by
  exact ⟨C10_amended_assoc_only_textual.1 [] "friend" "Pet" rfl,
    C10_amended_assoc_only_textual.2 doc0text "friend" "G" rfl⟩

end GqlGen
